import Mathlib

/-!
Verification development for the transmission-create torrent builder.

The shell (command-line front end) is embedded from `src/utils/create.cc`.
The core builder engine (path walking, piece hashing, metainfo assembly and
atomic writing) is not part of the source tree here, so those components are
modelled from the specification; each such definition is marked
`Modelled from the spec:` in its doc comment.

All byte strings are `List Nat`; machine integers are `Nat` with explicit
`% 2^32` (or a clamp at `ULONG_MAX`) where overflow matters.
-/

namespace TrCreate

/-! ## Definitions -/

/-- Modelled from the spec: partition of a flat byte buffer into consecutive
pieces of `ps` bytes, the final piece possibly shorter.  This is the
"single pre-concatenated buffer" reading of the piece layout (section 3
PieceSize, section 4.3). -/
def chunkStream (ps : Nat) (l : List Nat) : List (List Nat) :=
  if h : ps = 0 ∨ l = [] then [] else l.take ps :: chunkStream ps (l.drop ps)
termination_by l.length
decreasing_by
  push_neg at h
  obtain ⟨h1, h2⟩ := h
  have : 0 < l.length := List.length_pos.mpr h2
  simp only [List.length_drop]
  omega

/-- Modelled from the spec: emit all full `ps`-sized pieces from the front of
the carry buffer, returning them with the remaining (short) buffer. -/
def emitFull (ps : Nat) (buf : List Nat) : List (List Nat) × List Nat :=
  if h : ps = 0 ∨ buf.length < ps then ([], buf)
  else
    let r := emitFull ps (buf.drop ps)
    (buf.take ps :: r.1, r.2)
termination_by buf.length
decreasing_by
  push_neg at h
  obtain ⟨h1, h2⟩ := h
  simp only [List.length_drop]
  omega

/-- Modelled from the spec: process the manifest's files in order, carrying
the partial piece buffer across file boundaries; the final short piece is
emitted only when nonempty (section 4.3 HashPipeline). -/
def runPipeline (ps : Nat) : List Nat → List (List Nat) → List (List Nat)
  | buf, [] => if buf = [] then [] else [buf]
  | buf, f :: fs =>
    let e := emitFull ps (buf ++ f)
    e.1 ++ runPipeline ps e.2 fs

/-- Modelled from the spec: the ordered pieces the HashPipeline reads from the
manifest, one buffer per piece index (section 4.3). -/
def pipelinePieces (ps : Nat) (files : List (List Nat)) : List (List Nat) :=
  runPipeline ps [] files

/-- Modelled from the spec: piece `i` spans a file boundary when the
cumulative end offset of some non-final file falls strictly inside the
piece's byte range (section 3 PieceTable, section 4.3). -/
def spansBoundary (files : List (List Nat)) (ps i : Nat) : Prop :=
  ∃ j, j + 1 < files.length ∧
    ps * i < ((files.take (j + 1)).map List.length).sum ∧
    ((files.take (j + 1)).map List.length).sum < min (ps * (i + 1)) files.flatten.length

/-- Decimal ASCII bytes of a natural number. -/
def natDecimal (n : Nat) : List Nat :=
  (Nat.toDigits 10 n).map Char.toNat

/-- Length-prefixed byte string encoding of a byte list. -/
def bstr (s : List Nat) : List Nat := natDecimal s.length ++ [58] ++ s

/-- Length-prefixed encoding of a text string. -/
def bstrS (s : String) : List Nat := bstr (s.data.map Char.toNat)

/-- Integer encoding between the `i` and `e` marker bytes. -/
def bnat (n : Nat) : List Nat := [105] ++ natDecimal n ++ [101]

/-- List encoding between the `l` and `e` marker bytes. -/
def blist (xs : List (List Nat)) : List Nat := [108] ++ xs.flatten ++ [101]

/-- Modelled from the spec: the serialized metainfo document, an ordered,
length-prefixed, self-describing encoding.  Keys of each dictionary appear in
sorted order; optional fields are attached only when provided; a single-file
manifest folds the length into the top of the info dictionary while a
multi-file manifest uses a file list (section 4.4, section 6). -/
def serializeDoc (manifest : List (List String × Nat)) (name : String) (ps : Nat)
    (pieceHashes : List (List Nat)) (trackers : List String) (comment : Option String)
    (isPrivate : Bool) (source : Option String) (creationDate : Option Nat) : List Nat :=
  [100]
  ++ (match trackers with
      | [] => []
      | t :: _ => bstrS "announce" ++ bstrS t)
  ++ (if trackers.length > 1 then
        bstrS "announce-list" ++ blist (trackers.map (fun t => blist [bstrS t]))
      else [])
  ++ (match comment with | none => [] | some c => bstrS "comment" ++ bstrS c)
  ++ (match creationDate with | none => [] | some d => bstrS "creation date" ++ bnat d)
  ++ bstrS "info" ++ [100]
  ++ (if manifest.length = 1 then
        bstrS "length" ++ bnat ((manifest.headD ([], 0)).2)
      else
        bstrS "files" ++ blist (manifest.map (fun e =>
          [100] ++ bstrS "length" ++ bnat e.2
          ++ bstrS "path" ++ blist (e.1.map bstrS) ++ [101])))
  ++ bstrS "name" ++ bstrS name
  ++ bstrS "piece length" ++ bnat ps
  ++ bstrS "pieces" ++ bstr pieceHashes.flatten
  ++ (if isPrivate then bstrS "private" ++ bnat 1 else [])
  ++ (match source with | none => [] | some s2 => bstrS "source" ++ bstrS s2)
  ++ [101, 101]

/-- Modelled from the spec: an input file tree (section 4.1 PathWalker): a
file with its content bytes, or a directory of named children. -/
inductive FsTree where
  | file (content : List Nat)
  | dir (children : List (String × FsTree))

/-- Modelled from the spec: the operating system reports each directory's
entries in an unspecified order, so a directory enumeration returns the
entries in some permutation.  Two runs of the builder may observe two
different enumerations of the same unchanged tree. -/
def DirEnum : Type :=
  (es : List (String × FsTree)) → { l : List (String × FsTree) // l.Perm es }

/-- Entry order used by the walker: lexicographic by name. -/
def entryLE (a b : String × FsTree) : Prop := a.1 ≤ b.1

instance : DecidableRel entryLE := fun a b => inferInstanceAs (Decidable (a.1 ≤ b.1))

/-- The walker visits directory entries sorted by name (section 4.1). -/
def sortEntries (es : List (String × FsTree)) : List (String × FsTree) :=
  List.insertionSort entryLE es

/-- Modelled from the spec: depth-first walk producing the ordered manifest of
(path, content) pairs; at each directory the observed enumeration is sorted
by name before recursing (section 4.1). -/
def walkTree (enum : DirEnum) (pre : List String) : FsTree → List (List String × List Nat)
  | .file c => [(pre, c)]
  | .dir es =>
    ((sortEntries (enum es).val).attach.map
      (fun e => walkTree enum (pre ++ [e.val.1]) e.val.2)).flatten
termination_by t => sizeOf t
decreasing_by
  have hm : e.val ∈ sortEntries (enum es).val := e.property
  have h2 : e.val ∈ (enum es).val :=
    (List.perm_insertionSort entryLE (enum es).val).mem_iff.mp hm
  have h3 : e.val ∈ es := (enum es).property.mem_iff.mp h2
  have h4 : sizeOf e.val < sizeOf es := List.sizeOf_lt_of_mem h3
  have h5 : sizeOf e.val.2 < sizeOf e.val := by
    obtain ⟨a, b⟩ := e.val
    simp only [Prod.mk.sizeOf_spec]
    omega
  simp only [FsTree.dir.sizeOf_spec]
  omega

/-- Modelled from the spec: within any directory of a real file tree the
entry names are distinct. -/
inductive NodupNames : FsTree → Prop where
  | file (c : List Nat) : NodupNames (.file c)
  | dir (es : List (String × FsTree)) :
      (es.map Prod.fst).Nodup → (∀ e ∈ es, NodupNames e.2) → NodupNames (.dir es)

/-- Modelled from the spec: the builder's option set (section 6 Builder
invocation contract).  Per section 4.4 the creation timestamp is an input
attached only when provided, so it is part of the option record. -/
structure BuildOptions where
  trackers : List String
  comment : Option String
  isPrivate : Bool
  source : Option String
  creationDate : Option Nat

/-- Modelled from the spec: the full build pipeline as a function of the hash
`H`, the options, the piece size, the torrent name, the directory enumeration
behaviour observed during the run, and the input tree: walk, hash pieces
across file boundaries, assemble and serialize. -/
def buildBytes (H : List Nat → List Nat) (opts : BuildOptions) (ps : Nat) (name : String)
    (enum : DirEnum) (t : FsTree) : List Nat :=
  let m := walkTree enum [] t
  let pieces := pipelinePieces ps (m.map Prod.snd)
  serializeDoc (m.map (fun e => (e.1, e.2.length))) name ps (pieces.map H)
    opts.trackers opts.comment opts.isPrivate opts.source opts.creationDate

/-- An enumeration that reports entries in the stored order. -/
def idEnum : DirEnum := fun es => ⟨es, List.Perm.refl es⟩

/-- An enumeration that reports entries in reversed order. -/
def revEnum : DirEnum := fun es => ⟨es.reverse, List.reverse_perm es⟩

/-- Modelled from the spec: split a URL at the first scheme separator
(colon-slash-slash) into scheme and remainder. -/
def splitScheme : List Char → Option (List Char × List Char)
  | [] => none
  | ':' :: ('/' :: ('/' :: rest)) => some ([], rest)
  | c :: cs =>
    match splitScheme cs with
    | some (a, b) => some (c :: a, b)
    | none => none

/-- Modelled from the spec: a tracker URL is well-formed when it has a
nonempty scheme and a nonempty host (section 4.4). -/
def wellFormedUrl (s : String) : Bool :=
  match splitScheme s.data with
  | none => false
  | some (scheme, rest) =>
    !scheme.isEmpty && !((rest.takeWhile (fun c => c ≠ '/')).isEmpty)

/-- Modelled from the spec: the error taxonomy (section 7). -/
inductive TaskError where
  | pathNotFound
  | ioRead (path : String)
  | ioWrite (path : String)
  | invalidConfiguration (reason : String)
deriving DecidableEq

/-- Modelled from the spec: the terminal result of the task (section 6). -/
inductive TaskResult where
  | done
  | failed (e : TaskError)
  | cancelled
deriving DecidableEq

/-- Modelled from the spec: filesystem operations the writer may perform
(section 4.6): append bytes to the temporary file, atomically rename it over
the destination, or remove it. -/
inductive FsOp where
  | writeTemp (bytes : List Nat)
  | renameTempToDest
  | removeTemp
deriving DecidableEq

/-- Contents of the temporary file and of the destination path; `none` means
the path does not exist. -/
structure FsState where
  temp : Option (List Nat)
  dest : Option (List Nat)
deriving DecidableEq

/-- Initially neither the temporary file nor the destination exists. -/
def initFs : FsState := ⟨none, none⟩

/-- Effect of one writer operation on the filesystem state. -/
def applyOp (s : FsState) : FsOp → FsState
  | .writeTemp b => { s with temp := some ((s.temp.getD []) ++ b) }
  | .renameTempToDest => { temp := none, dest := s.temp }
  | .removeTemp => { s with temp := none }

/-- Fold a trace of filesystem operations over a state. -/
def runOps : FsState → List FsOp → FsState
  | s, [] => s
  | s, op :: ops => runOps (applyOp s op) ops

/-- Modelled from the spec: the environment a single task run observes — at
which piece boundary (if any) a cancellation request or read error is seen,
whether cancellation is observed during Writing before the rename, and
whether the rename fails (section 4.5, section 5). -/
structure TaskEnv where
  cancelAtPiece : Option Nat
  readErr : Option (Nat × String)
  cancelBeforeRename : Bool
  renameFails : Bool

/-- Modelled from the spec: the hashing phase scans the piece boundaries in
order; at each boundary the cancellation flag is checked, then the piece is
read (which may fail with a read error); `none` means hashing ran to
completion (section 4.3). -/
def hashPhase (cancelAt : Option Nat) (readErr : Option (Nat × String)) (count i : Nat) :
    Option TaskResult :=
  if i < count then
    if cancelAt = some i then some TaskResult.cancelled
    else
      match readErr with
      | some je =>
        if je.1 = i then some (TaskResult.failed (TaskError.ioRead je.2))
        else hashPhase cancelAt readErr count (i + 1)
      | none => hashPhase cancelAt readErr count (i + 1)
  else none
termination_by count - i

/-- Modelled from the spec: the document the assembler serializes once
hashing has completed (section 4.4). -/
def taskDoc (H : List Nat → List Nat) (files : List (List String × List Nat)) (ps : Nat)
    (name : String) (opts : BuildOptions) : List Nat :=
  serializeDoc (files.map (fun e => (e.1, e.2.length))) name ps
    ((pipelinePieces ps (files.map Prod.snd)).map H)
    opts.trackers opts.comment opts.isPrivate opts.source opts.creationDate

/-- Modelled from the spec (sections 4.3-4.6, 5): one sequential run of the
builder task from the start of hashing.  Cancellation and read errors are
observed at piece boundaries and abort with no filesystem activity; tracker
validation happens in the assembler, before any write; the writer streams the
document into a temporary file and atomically renames it onto the
destination, observing cancellation once more before the rename; on a write
failure or a cancellation during Writing the temporary file is removed.
Returns the terminal result with the ordered trace of filesystem
operations. -/
def taskRun (H : List Nat → List Nat) (files : List (List String × List Nat)) (ps : Nat)
    (name outPath : String) (opts : BuildOptions) (env : TaskEnv) :
    TaskResult × List FsOp :=
  match hashPhase env.cancelAtPiece env.readErr
      (pipelinePieces ps (files.map Prod.snd)).length 0 with
  | some r => (r, [])
  | none =>
    match opts.trackers.find? (fun u => !wellFormedUrl u) with
    | some u => (TaskResult.failed (TaskError.invalidConfiguration u), [])
    | none =>
      if opts.isPrivate && opts.trackers.isEmpty then
        (TaskResult.failed (TaskError.invalidConfiguration "private torrent without trackers"),
          [])
      else
        let writes := (chunkStream 1024 (taskDoc H files ps name opts)).map FsOp.writeTemp
        if env.cancelBeforeRename then
          (TaskResult.cancelled, writes ++ [FsOp.removeTemp])
        else if env.renameFails then
          (TaskResult.failed (TaskError.ioWrite outPath), writes ++ [FsOp.removeTemp])
        else
          (TaskResult.done, writes ++ [FsOp.renameTempToDest])

/-- 32-bit unsigned truncation. -/
def u32 (n : Nat) : Nat := n % 4294967296

/-- Largest value of the C `unsigned long` (64-bit). -/
def ULONG_MAX : Nat := 18446744073709551615

def EXIT_SUCCESS : Nat := 0

def EXIT_FAILURE : Nat := 1

def UINT32_MAX : Nat := 4294967295

/-- Numeric value of the leading decimal digit run of a character list,
together with the unconsumed remainder. -/
def parseDigits : List Char → Nat → Nat × List Char
  | [], acc => (acc, [])
  | c :: cs, acc =>
    if c.isDigit then parseDigits cs (acc * 10 + (c.toNat - 48)) else (acc, c :: cs)

/-- The C-locale whitespace characters `strtoul` skips. -/
def isSpaceC (c : Char) : Bool :=
  c = ' ' || c = '\t' || c = '\n' || c = '\x0b' || c = '\x0c' || c = '\r'

/-- Model of C `strtoul(s, &endptr, 10)`: skip leading C-locale whitespace,
read an optional single plus or minus sign and then the digit run.  A
magnitude above `ULONG_MAX` returns `ULONG_MAX` (ERANGE); otherwise a minus
sign negates the value modulo 2^64.  When no digit follows, no conversion is
performed: the value is 0 and `endptr` is reset to the start of the whole
string.  The second component is the remainder of the string from
`endptr`. -/
def strtoul10 (s : List Char) : Nat × List Char :=
  let afterWs := s.dropWhile isSpaceC
  let sr : Bool × List Char :=
    match afterWs with
    | '+' :: r => (false, r)
    | '-' :: r => (true, r)
    | r => (false, r)
  if (sr.2.headD '\x00').isDigit then
    let r := parseDigits sr.2 0
    (if ULONG_MAX < r.1 then ULONG_MAX
     else if sr.1 then (18446744073709551616 - r.1) % 18446744073709551616
     else r.1, r.2)
  else
    (0, s)

/-- The value `options.piecesize_kib` holds after the -s case of
parseCommandLine (create.cc lines 83-95): the `strtoul` result truncated by
assignment into the 32-bit field, then multiplied by 1024 with 32-bit
wrapping when the character right after the digits is `M`. -/
def parsePieceSizeKib (s : String) : Nat :=
  let r := strtoul10 s.data
  let k := u32 r.1
  if r.2.headD '\x00' = 'M' then u32 (k * 1024) else k

/-- The override handed to the builder (create.cc lines 201-204): applied only
when `piecesize_kib` is nonzero, as `piecesize_kib * KiB` in 32-bit unsigned
arithmetic; zero means the default piece size stays. -/
def pieceSizeOverride (kib : Nat) : Option Nat :=
  if kib ≠ 0 then some (u32 (kib * 1024)) else none

/-- End-to-end: the piece-size override the builder receives for a -s
argument string. -/
def overrideOfArg (s : String) : Option Nat := pieceSizeOverride (parsePieceSizeKib s)

/-- Claim C8 as worded: the override is the parsed value in KiB times 1024,
where a trailing M on the string first multiplies the parsed value by 1024,
all in 32-bit wrapping arithmetic, and a zero KiB value means no override. -/
def claimedOverrideOfArg (s : String) : Option Nat :=
  let v := (strtoul10 s.data).1
  let kib := u32 (if s.data.getLastD ' ' = 'M' then v * 1024 else v)
  if kib ≠ 0 then some (u32 (kib * 1024)) else none

/-- Claim C8 amended: the M that scales by 1024 is the character immediately
following the parsed digits (whatever follows it); the resulting KiB value,
reduced once mod 2^32, must be nonzero for an override to be set, and the
override is that value times 1024 reduced mod 2^32. -/
def amendedOverrideOfArg (s : String) : Option Nat :=
  let r := strtoul10 s.data
  let kib := (if r.2.headD '\x00' = 'M' then r.1 * 1024 else r.1) % 4294967296
  if kib = 0 then none else some (kib * 1024 % 4294967296)

/-- The option record of create.cc (struct app_options, lines 42-52). -/
structure app_options where
  trackers : List String := []
  is_private : Bool := false
  show_version : Bool := false
  comment : Option String := none
  outfile : Option String := none
  infile : Option String := none
  piecesize_kib : Nat := 0
  source : Option String := none
deriving DecidableEq

/-- One option token as classified by tr_getopt: the cases of the switch in
parseCommandLine (create.cc lines 59-107). -/
inductive CmdOpt where
  | optV
  | optP
  | optO (arg : String)
  | optC (arg : String)
  | optT (arg : String)
  | optS (arg : Option String)
  | optR (arg : String)
  | unknownArg (arg : String)
  | badOpt
deriving DecidableEq

/-- parseCommandLine (create.cc lines 54-111): fold the option tokens over the
record; `none` models the nonzero return taken on an unrecognized option. -/
def parseCommandLine : app_options → List CmdOpt → Option app_options
  | o, [] => some o
  | o, c :: cs =>
    match c with
    | .optV => parseCommandLine { o with show_version := true } cs
    | .optP => parseCommandLine { o with is_private := true } cs
    | .optO a => parseCommandLine { o with outfile := some a } cs
    | .optC a => parseCommandLine { o with comment := some a } cs
    | .optT a => parseCommandLine { o with trackers := o.trackers ++ [a] } cs
    | .optS a =>
      match a with
      | none => parseCommandLine o cs
      | some s2 => parseCommandLine { o with piecesize_kib := parsePieceSizeKib s2 } cs
    | .optR a => parseCommandLine { o with source := some a } cs
    | .unknownArg a => parseCommandLine { o with infile := some a } cs
    | .badOpt => none

/-- The terminal result codes of the core builder as read by the shell
(create.cc lines 242-263). -/
inductive MakeMetaResult where
  | ok
  | url
  | ioRead
  | ioWrite
  | cancelled
deriving DecidableEq

/-- A snapshot of the builder struct as observable by the polling loop
(create.cc lines 225-238): the progress fields the loop reads together with
the rest of the builder state, which the loop must leave untouched. -/
structure builder_view where
  isDone : Bool
  pieceIndex : Nat
  pieceCount : Nat
  result : MakeMetaResult
  errfile : String
  fileCount : Nat
  totalSize : Nat
  pieceSize : Nat
deriving DecidableEq

/-- Observable output of the shell run, in order. -/
inductive Event where
  | printedVersion
  | errNoInput
  | errNoOutfile
  | errPrivateNoTrackers
  | warnNoTrackers
  | creatingTorrent (outfile : String)
  | calledBuilderCreate
  | errCreateFailed
  | setPieceSize (bytes : Nat)
  | startedMakeMeta
  | progress (index total : Nat)
  | resultOk
  | resultUrl (errfile : String)
  | resultRead (errfile : String)
  | resultWrite (errfile : String)
  | resultCancelled
deriving DecidableEq

/-- The polling loop of tr_main (create.cc lines 225-238), run over the
sequence of builder snapshots the worker exposes at successive polls: each
iteration reads `isDone` as the loop guard and reads `pieceIndex` and
`pieceCount` to print progress when the index changed since `last`.  The
first component returns the builder snapshots exactly as the loop leaves
them; the second is the printed progress trace. -/
def pollLoop : List builder_view → Nat → List builder_view × List Event
  | [], _ => ([], [])
  | v :: vs, last =>
    if v.isDone then (v :: vs, [])
    else
      let evs := if v.pieceIndex ≠ last then [Event.progress v.pieceIndex v.pieceCount] else []
      let last2 := if v.pieceIndex ≠ last then v.pieceIndex else last
      let r := pollLoop vs last2
      (v :: r.1, evs ++ r.2)

/-- Environment of one shell run: outcomes of the external calls the shell
makes (output-name deduction, builder creation, and the core's terminal
result with its error path). -/
structure ShellEnv where
  basename : Option String
  createOk : Bool
  result : MakeMetaResult
  errfile : String

/-- The result switch at the bottom of tr_main (create.cc lines 242-263). -/
def resultEvent (r : MakeMetaResult) (errfile : String) : Event :=
  match r with
  | .ok => Event.resultOk
  | .url => Event.resultUrl errfile
  | .ioRead => Event.resultRead errfile
  | .ioWrite => Event.resultWrite errfile
  | .cancelled => Event.resultCancelled

/-- tr_main (create.cc lines 130-269): parse the command line, handle the
version banner, require an input path, deduce the output path when none was
given, reject a private torrent without trackers (warning only when not
private), create the builder, apply the piece-size override, start the build,
poll until done, print the terminal result — and return EXIT_SUCCESS
regardless of that result. -/
def tr_main (args : List CmdOpt) (env : ShellEnv) (views : List builder_view) :
    List Event × Nat :=
  match parseCommandLine {} args with
  | none => ([], EXIT_FAILURE)
  | some o =>
    if o.show_version then ([Event.printedVersion], EXIT_SUCCESS)
    else
      match o.infile with
      | none => ([Event.errNoInput], EXIT_FAILURE)
      | some _ =>
        match (match o.outfile with
               | some f => some f
               | none => env.basename.map (fun b => b ++ ".torrent")) with
        | none => ([Event.errNoOutfile], EXIT_FAILURE)
        | some outfile =>
          if o.trackers.isEmpty && o.is_private then
            ([Event.errPrivateNoTrackers], EXIT_FAILURE)
          else
            let warn := if o.trackers.isEmpty then [Event.warnNoTrackers] else []
            let evs1 := warn ++ [Event.creatingTorrent outfile, Event.calledBuilderCreate]
            if !env.createOk then (evs1 ++ [Event.errCreateFailed], EXIT_FAILURE)
            else
              let sizeEvs := if o.piecesize_kib ≠ 0 then
                  [Event.setPieceSize (u32 (o.piecesize_kib * 1024))] else []
              let p := pollLoop views UINT32_MAX
              (evs1 ++ sizeEvs ++ [Event.startedMakeMeta] ++ p.2 ++
                 [resultEvent env.result env.errfile], EXIT_SUCCESS)

/-! ## Theorems -/

theorem chunkStream_nil (ps : Nat) : chunkStream ps [] = [] := by
  rw [chunkStream.eq_def]; simp

theorem chunkStream_cons (ps : Nat) (l : List Nat) (hps : ps ≠ 0) (hl : l ≠ []) :
    chunkStream ps l = l.take ps :: chunkStream ps (l.drop ps) := by
  rw [chunkStream.eq_def]
  simp [hps, hl]

/-- Every piece of the flat chunking concatenates back to the original
buffer. -/
theorem chunkStream_join (ps : Nat) (hps : 0 < ps) :
    ∀ n l, l.length ≤ n → (chunkStream ps l).flatten = l := by
  intro n
  induction n with
  | zero =>
    intro l hl
    have : l = [] := List.eq_nil_of_length_eq_zero (Nat.le_zero.mp hl)
    subst this
    simp [chunkStream_nil]
  | succ n ih =>
    intro l hl
    rcases eq_or_ne l [] with rfl | hne
    · simp [chunkStream_nil]
    · rw [chunkStream_cons ps l (Nat.pos_iff_ne_zero.mp hps) hne]
      have hlen : (l.drop ps).length ≤ n := by
        simp only [List.length_drop]
        have : 0 < l.length := List.length_pos.mpr hne
        omega
      simp [ih (l.drop ps) hlen]

/-- Number of pieces in the flat chunking: the rounding-up quotient. -/
theorem chunkStream_length (ps : Nat) (hps : 0 < ps) :
    ∀ n l, l.length ≤ n → (chunkStream ps l).length = (l.length + ps - 1) / ps := by
  intro n
  induction n with
  | zero =>
    intro l hl
    have : l = [] := List.eq_nil_of_length_eq_zero (Nat.le_zero.mp hl)
    subst this
    simp [chunkStream_nil, Nat.div_eq_of_lt (by omega : ps - 1 < ps)]
  | succ n ih =>
    intro l hl
    rcases eq_or_ne l [] with rfl | hne
    · simp [chunkStream_nil, Nat.div_eq_of_lt (by omega : ps - 1 < ps)]
    · rw [chunkStream_cons ps l (Nat.pos_iff_ne_zero.mp hps) hne]
      have hpos : 0 < l.length := List.length_pos.mpr hne
      have hlen : (l.drop ps).length ≤ n := by
        simp only [List.length_drop]; omega
      rw [List.length_cons, ih (l.drop ps) hlen, List.length_drop]
      rcases Nat.lt_or_ge l.length ps with hlt | hge
      · have h1 : l.length - ps = 0 := by omega
        rw [h1]
        have h2 : (0 + ps - 1) / ps = 0 := Nat.div_eq_of_lt (by omega)
        have h3 : (l.length + ps - 1) / ps = 1 := by
          apply Nat.div_eq_of_lt_le <;> omega
        omega
      · have h1 : l.length - ps + ps - 1 = l.length - 1 := by omega
        have h2 : l.length + ps - 1 = (l.length - 1) + ps := by omega
        rw [h1, h2, Nat.add_div_right _ hps]

/-- The piece at index `i` of the flat chunking is exactly the byte range
starting at `ps*i` of the buffer. -/
theorem chunkStream_getD (ps : Nat) (hps : 0 < ps) :
    ∀ n l i, l.length ≤ n → i < (chunkStream ps l).length →
      (chunkStream ps l).getD i [] = (l.drop (ps * i)).take ps := by
  intro n
  induction n with
  | zero =>
    intro l i hl hi
    have : l = [] := List.eq_nil_of_length_eq_zero (Nat.le_zero.mp hl)
    subst this
    simp [chunkStream_nil] at hi
  | succ n ih =>
    intro l i hl hi
    rcases eq_or_ne l [] with rfl | hne
    · simp [chunkStream_nil] at hi
    · rw [chunkStream_cons ps l (Nat.pos_iff_ne_zero.mp hps) hne] at hi ⊢
      match i with
      | 0 => simp
      | i + 1 =>
        have hpos : 0 < l.length := List.length_pos.mpr hne
        have hlen : (l.drop ps).length ≤ n := by
          simp only [List.length_drop]; omega
        have hi' : i < (chunkStream ps (l.drop ps)).length := by
          simpa using hi
        have := ih (l.drop ps) i hlen hi'
        simp only [List.getD_cons_succ, this, List.drop_drop]
        have h2 : ps + ps * i = ps * (i + 1) := by ring
        rw [h2]

theorem emitFull_snd_lt (ps : Nat) (hps : 0 < ps) :
    ∀ n buf, buf.length ≤ n → ((emitFull ps buf).2).length < ps := by
  intro n
  induction n with
  | zero =>
    intro buf hb
    rw [emitFull.eq_def]
    have : buf.length = 0 := Nat.le_zero.mp hb
    simp [this, hps]
  | succ n ih =>
    intro buf hb
    rw [emitFull.eq_def]
    split
    · next h =>
      rcases h with h | h
      · omega
      · simpa using h
    · next h =>
      push_neg at h
      obtain ⟨h1, h2⟩ := h
      have : (buf.drop ps).length ≤ n := by
        simp only [List.length_drop]; omega
      exact ih (buf.drop ps) this

theorem emitFull_chunk (ps : Nat) (hps : 0 < ps) :
    ∀ n buf, buf.length ≤ n → ∀ rest,
      (emitFull ps buf).1 ++ chunkStream ps ((emitFull ps buf).2 ++ rest) =
        chunkStream ps (buf ++ rest) := by
  intro n
  induction n with
  | zero =>
    intro buf hb rest
    have : buf = [] := List.eq_nil_of_length_eq_zero (Nat.le_zero.mp hb)
    subst this
    rw [emitFull.eq_def]
    simp [hps]
  | succ n ih =>
    intro buf hb rest
    rw [emitFull.eq_def]
    split
    · next h =>
      rcases h with h | h
      · omega
      · simp
    · next h =>
      push_neg at h
      obtain ⟨h1, h2⟩ := h
      have hbd : (buf.drop ps).length ≤ n := by
        simp only [List.length_drop]; omega
      have hbne : buf ≠ [] := by
        intro hc; subst hc; simp at h2; omega
      have hrhs : chunkStream ps (buf ++ rest) =
          (buf ++ rest).take ps :: chunkStream ps ((buf ++ rest).drop ps) := by
        apply chunkStream_cons ps _ h1
        simp [hbne]
      rw [hrhs]
      have htake : (buf ++ rest).take ps = buf.take ps := List.take_append_of_le_length h2
      have hdrop : (buf ++ rest).drop ps = buf.drop ps ++ rest := List.drop_append_of_le_length h2
      rw [htake, hdrop]
      simp only [List.cons_append, List.cons.injEq, true_and]
      exact ih (buf.drop ps) hbd rest

theorem runPipeline_eq_chunk (ps : Nat) (hps : 0 < ps) :
    ∀ files buf, buf.length < ps →
      runPipeline ps buf files = chunkStream ps (buf ++ files.flatten) := by
  intro files
  induction files with
  | nil =>
    intro buf hb
    simp only [runPipeline, List.flatten_nil, List.append_nil]
    rcases eq_or_ne buf [] with rfl | hne
    · simp [chunkStream_nil]
    · rw [chunkStream_cons ps buf (Nat.pos_iff_ne_zero.mp hps) hne]
      have h1 : buf.take ps = buf := List.take_of_length_le (le_of_lt hb)
      have h2 : buf.drop ps = [] := List.drop_eq_nil_of_le (le_of_lt hb)
      simp [h1, h2, chunkStream_nil, hne]
  | cons f fs ih =>
    intro buf hb
    simp only [runPipeline]
    have hrem : ((emitFull ps (buf ++ f)).2).length < ps :=
      emitFull_snd_lt ps hps (buf ++ f).length (buf ++ f) le_rfl
    rw [ih _ hrem]
    have := emitFull_chunk ps hps (buf ++ f).length (buf ++ f) le_rfl fs.flatten
    rw [this]
    simp [List.append_assoc]

/-- The pipeline's pieces coincide with chunking the pre-concatenated
stream. -/
theorem pipelinePieces_eq_chunkStream (ps : Nat) (hps : 0 < ps) (files : List (List Nat)) :
    pipelinePieces ps files = chunkStream ps files.flatten := by
  unfold pipelinePieces
  have := runPipeline_eq_chunk ps hps files [] (by simpa using hps)
  simpa using this

theorem getLastD_eq_getD {α : Type} (d : α) :
    ∀ l : List α, l ≠ [] → l.getLastD d = l.getD (l.length - 1) d := by
  intro l
  induction l with
  | nil => intro h; exact absurd rfl h
  | cons a l ih =>
    intro _
    rcases eq_or_ne l [] with rfl | hne
    · simp
    · have h1 : (a :: l).getLastD d = l.getLastD d := by
        match l, hne with
        | b :: l2, _ => simp [List.getLastD]
      have h2 : (a :: l).length - 1 = (l.length - 1) + 1 := by
        have : 0 < l.length := List.length_pos.mpr hne
        simp only [List.length_cons]
        omega
      rw [h1, ih hne, h2, List.getD_cons_succ]

/-- C1. For a manifest with positive total length and positive piece size, the
pipeline's piece count is the ceiling of totalLength / pieceSize, and the
final piece's byte length is totalLength - pieceSize*(pieceCount-1), which
lies in the range (0, pieceSize]. -/
theorem claim_c1 (ps : Nat) (files : List (List Nat)) (hps : 0 < ps)
    (hnz : files.flatten ≠ []) :
    (pipelinePieces ps files).length = ⌈(files.flatten.length : ℚ) / (ps : ℚ)⌉₊ ∧
    ((pipelinePieces ps files).getLastD []).length
      = files.flatten.length - ps * ((pipelinePieces ps files).length - 1) ∧
    0 < files.flatten.length - ps * ((pipelinePieces ps files).length - 1) ∧
    files.flatten.length - ps * ((pipelinePieces ps files).length - 1) ≤ ps := by
  have hpe := pipelinePieces_eq_chunkStream ps hps files
  have hn : 0 < files.flatten.length := List.length_pos.mpr hnz
  obtain ⟨q, r, hr, hqr⟩ : ∃ q r, r < ps ∧ files.flatten.length - 1 = ps * q + r :=
    ⟨_, _, Nat.mod_lt _ hps, (Nat.div_add_mod _ _).symm⟩
  have hcount : (pipelinePieces ps files).length = q + 1 := by
    rw [hpe, chunkStream_length ps hps _ _ le_rfl]
    have h1 : files.flatten.length + ps - 1 = ps * q + (r + ps) := by omega
    rw [h1, Nat.mul_add_div hps, Nat.add_div_right _ hps, Nat.div_eq_of_lt hr]
  have hceil : q + 1 = ⌈(files.flatten.length : ℚ) / (ps : ℚ)⌉₊ := by
    symm
    rw [Nat.ceil_eq_iff (by omega : q + 1 ≠ 0)]
    have hpsQ : (0 : ℚ) < (ps : ℚ) := by exact_mod_cast hps
    have hlow : ps * q < files.flatten.length := by omega
    have hhigh : files.flatten.length ≤ ps * (q + 1) := by
      have e1 : ps * (q + 1) = ps * q + ps := by ring
      omega
    constructor
    · rw [Nat.add_sub_cancel, lt_div_iff₀ hpsQ, mul_comm]
      exact_mod_cast hlow
    · rw [div_le_iff₀ hpsQ, mul_comm]
      exact_mod_cast hhigh
  have hne : pipelinePieces ps files ≠ [] := by
    intro hc
    rw [hc] at hcount
    simp at hcount
  have hlastlen : ((pipelinePieces ps files).getLastD []).length
      = files.flatten.length - ps * q := by
    rw [getLastD_eq_getD [] _ hne, hcount]
    have hidx : q < (chunkStream ps files.flatten).length := by
      rw [← hpe, hcount]
      omega
    rw [hpe]
    have hq1 : q + 1 - 1 = q := by omega
    rw [hq1, chunkStream_getD ps hps files.flatten.length files.flatten q le_rfl hidx]
    simp only [List.length_take, List.length_drop]
    omega
  refine ⟨hcount.trans hceil, ?_, ?_, ?_⟩
  · rw [hlastlen, hcount]
    simp
  · rw [hcount]
    simp only [Nat.add_sub_cancel]
    omega
  · rw [hcount]
    simp only [Nat.add_sub_cancel]
    omega

/-- C4. For every piece whose byte range spans a file boundary, the digest the
pipeline computes for that piece equals the digest of the same byte range
read from the single pre-concatenated buffer of all files in manifest
order. -/
theorem claim_c4 (H : List Nat → List Nat) (files : List (List Nat)) (ps i : Nat)
    (hps : 0 < ps) (hi : i < (pipelinePieces ps files).length)
    (hspan : spansBoundary files ps i) :
    H ((pipelinePieces ps files).getD i []) =
      H ((files.flatten.drop (ps * i)).take ps) := by
  rw [pipelinePieces_eq_chunkStream ps hps files] at hi ⊢
  rw [chunkStream_getD ps hps files.flatten.length files.flatten i le_rfl hi]

/-- Witness for C1 at piece size 4 over files of 5, 3 and 2 bytes. -/
theorem claim_c1_witness :
    (pipelinePieces 4 [[0, 1, 2, 3, 4], [5, 6, 7], [8, 9]]).length =
      ⌈((([[0, 1, 2, 3, 4], [5, 6, 7], [8, 9]] : List (List Nat)).flatten.length : ℚ) /
        ((4 : Nat) : ℚ))⌉₊ ∧
    ((pipelinePieces 4 [[0, 1, 2, 3, 4], [5, 6, 7], [8, 9]]).getLastD []).length
      = ([[0, 1, 2, 3, 4], [5, 6, 7], [8, 9]] : List (List Nat)).flatten.length -
        4 * ((pipelinePieces 4 [[0, 1, 2, 3, 4], [5, 6, 7], [8, 9]]).length - 1) ∧
    0 < ([[0, 1, 2, 3, 4], [5, 6, 7], [8, 9]] : List (List Nat)).flatten.length -
        4 * ((pipelinePieces 4 [[0, 1, 2, 3, 4], [5, 6, 7], [8, 9]]).length - 1) ∧
    ([[0, 1, 2, 3, 4], [5, 6, 7], [8, 9]] : List (List Nat)).flatten.length -
        4 * ((pipelinePieces 4 [[0, 1, 2, 3, 4], [5, 6, 7], [8, 9]]).length - 1) ≤ 4 :=
  claim_c1 4 [[0, 1, 2, 3, 4], [5, 6, 7], [8, 9]] (by norm_num) (by simp)

/-- Witness for C4 at piece index 1, which spans the 5-byte/3-byte file
boundary. -/
theorem claim_c4_witness :
    (fun l : List Nat => l) ((pipelinePieces 4 [[0, 1, 2, 3, 4], [5, 6, 7]]).getD 1 []) =
      (fun l : List Nat => l)
        ((([[0, 1, 2, 3, 4], [5, 6, 7]] : List (List Nat)).flatten.drop (4 * 1)).take 4) :=
  claim_c4 (fun l => l) [[0, 1, 2, 3, 4], [5, 6, 7]] 4 1 (by norm_num)
    (by simp [pipelinePieces, runPipeline, emitFull])
    ⟨0, by norm_num, by norm_num, by norm_num⟩

theorem sortEntries_eq_of_perm (l1 l2 : List (String × FsTree))
    (hp : l1.Perm l2) (hnd : (l1.map Prod.fst).Nodup) :
    sortEntries l1 = sortEntries l2 := by
  haveI : IsTotal (String × FsTree) entryLE := ⟨fun a b => le_total a.1 b.1⟩
  haveI : IsTrans (String × FsTree) entryLE := ⟨fun _ _ _ h1 h2 => le_trans h1 h2⟩
  haveI : IsAntisymm (String × FsTree) (fun a b : String × FsTree => a.1 < b.1) :=
    ⟨fun _ _ h1 h2 => absurd h2 (lt_asymm h1)⟩
  have hs1 : (sortEntries l1).Sorted entryLE := List.sorted_insertionSort entryLE l1
  have hs2 : (sortEntries l2).Sorted entryLE := List.sorted_insertionSort entryLE l2
  have hp1 : (sortEntries l1).Perm l1 := List.perm_insertionSort entryLE l1
  have hp2 : (sortEntries l2).Perm l2 := List.perm_insertionSort entryLE l2
  have hpp : (sortEntries l1).Perm (sortEntries l2) := hp1.trans (hp.trans hp2.symm)
  have hnd2 : (l2.map Prod.fst).Nodup := ((hp.map Prod.fst).nodup_iff).mp hnd
  have hnd1' : ((sortEntries l1).map Prod.fst).Nodup := ((hp1.map Prod.fst).nodup_iff).mpr hnd
  have hnd2' : ((sortEntries l2).map Prod.fst).Nodup := ((hp2.map Prod.fst).nodup_iff).mpr hnd2
  have key : ∀ l : List (String × FsTree), l.Sorted entryLE → (l.map Prod.fst).Nodup →
      l.Pairwise (fun a b : String × FsTree => a.1 < b.1) := by
    intro l hs hn
    have h1 : l.Pairwise (fun a b : String × FsTree => a.1 ≠ b.1) :=
      List.pairwise_map.mp hn
    exact (hs.and h1).imp (fun h => lt_of_le_of_ne h.1 h.2)
  exact List.eq_of_perm_of_sorted hpp (key _ hs1 hnd1') (key _ hs2 hnd2')

/-- The manifest produced by the walker does not depend on the order in which
the operating system enumerates directory entries. -/
theorem walkTree_enum_indep (e1 e2 : DirEnum) :
    ∀ N t, sizeOf t ≤ N → NodupNames t → ∀ pre, walkTree e1 pre t = walkTree e2 pre t := by
  intro N
  induction N with
  | zero =>
    intro t ht
    exfalso
    cases t <;> simp at ht
  | succ N ih =>
    intro t ht hnd pre
    cases t with
    | file c => simp [walkTree]
    | dir es =>
      cases hnd with
      | dir _ hnames hch =>
        simp only [walkTree]
        have hperm : (e1 es).val.Perm (e2 es).val :=
          (e1 es).property.trans (e2 es).property.symm
        have hnd1 : ((e1 es).val.map Prod.fst).Nodup :=
          (((e1 es).property.map Prod.fst).nodup_iff).mpr hnames
        have hsort : sortEntries (e1 es).val = sortEntries (e2 es).val :=
          sortEntries_eq_of_perm _ _ hperm hnd1
        rw [hsort]
        congr 1
        apply List.map_congr_left
        intro e _
        have hmem : e.val ∈ es := by
          have hm1 : e.val ∈ sortEntries (e2 es).val := e.property
          have hm2 : e.val ∈ (e2 es).val :=
            (List.perm_insertionSort entryLE (e2 es).val).mem_iff.mp hm1
          exact (e2 es).property.mem_iff.mp hm2
        have hsz : sizeOf e.val.2 ≤ N := by
          have h4 : sizeOf e.val < sizeOf es := List.sizeOf_lt_of_mem hmem
          have h5 : sizeOf e.val.2 < sizeOf e.val := by
            obtain ⟨a, b⟩ := e.val
            simp only [Prod.mk.sizeOf_spec]
            omega
          have h6 : sizeOf (FsTree.dir es) = 1 + sizeOf es := by
            simp [FsTree.dir.sizeOf_spec]
          omega
        exact ih e.val.2 hsz (hch e.val hmem) (pre ++ [e.val.1])

/-- C2. Two runs of the builder over the same unchanged tree with identical
options produce byte-identical serialized documents, even though the two runs
may observe the operating system's directory enumerations in different
orders. -/
theorem claim_c2 (H : List Nat → List Nat) (opts : BuildOptions) (ps : Nat) (name : String)
    (t : FsTree) (e1 e2 : DirEnum) (hnd : NodupNames t) :
    buildBytes H opts ps name e1 t = buildBytes H opts ps name e2 t := by
  unfold buildBytes
  rw [walkTree_enum_indep e1 e2 (sizeOf t) t le_rfl hnd]

/-- Witness for C2: a two-entry directory enumerated in opposite orders by the
two runs still serializes to identical bytes. -/
theorem claim_c2_witness :
    buildBytes (fun l => l)
      ⟨["http://tr.example/announce"], none, false, none, some 7⟩ 4 "n" idEnum
      (FsTree.dir [("b", FsTree.file [1, 2]), ("a", FsTree.file [3])]) =
    buildBytes (fun l => l)
      ⟨["http://tr.example/announce"], none, false, none, some 7⟩ 4 "n" revEnum
      (FsTree.dir [("b", FsTree.file [1, 2]), ("a", FsTree.file [3])]) :=
  claim_c2 (fun l => l) ⟨["http://tr.example/announce"], none, false, none, some 7⟩ 4 "n"
    (FsTree.dir [("b", FsTree.file [1, 2]), ("a", FsTree.file [3])]) idEnum revEnum
    (by
      apply NodupNames.dir
      · simp
      · intro e he
        simp only [List.mem_cons, List.mem_singleton] at he
        rcases he with rfl | rfl | h
        · exact NodupNames.file _
        · exact NodupNames.file _
        · simp at h)

theorem runOps_append (a b : List FsOp) : ∀ s, runOps s (a ++ b) = runOps (runOps s a) b := by
  induction a with
  | nil => intro s; rfl
  | cons op a ih => intro s; simp only [List.cons_append, runOps]; exact ih _

theorem runOps_dest_of_no_rename (p : List FsOp) :
    ∀ s, (∀ op ∈ p, op ≠ FsOp.renameTempToDest) → (runOps s p).dest = s.dest := by
  induction p with
  | nil => intro s _; rfl
  | cons op p ih =>
    intro s h
    have hop := h op (List.mem_cons_self op p)
    have hrest : ∀ o ∈ p, o ≠ FsOp.renameTempToDest :=
      fun o ho => h o (List.mem_cons_of_mem _ ho)
    cases op with
    | writeTemp b => exact (ih _ hrest).trans rfl
    | renameTempToDest => exact absurd rfl hop
    | removeTemp => exact (ih _ hrest).trans rfl

theorem runOps_writes_temp (chunks : List (List Nat)) :
    ∀ s, chunks ≠ [] →
      (runOps s (chunks.map FsOp.writeTemp)).temp = some ((s.temp.getD []) ++ chunks.flatten) := by
  induction chunks with
  | nil => intro s h; exact absurd rfl h
  | cons c cs ih =>
    intro s _
    rcases eq_or_ne cs [] with rfl | hne
    · simp [runOps, applyOp]
    · simp only [List.map_cons, runOps]
      rw [ih _ hne]
      simp [applyOp, List.append_assoc]

theorem append_concat_cases {α : Type} (p t l : List α) (x : α)
    (h : p ++ t = l ++ [x]) : (p = l ++ [x] ∧ t = []) ∨ ∃ t2, p ++ t2 = l := by
  rcases List.eq_nil_or_concat t with rfl | ⟨t2, a, rfl⟩
  · left
    exact ⟨by simpa using h, rfl⟩
  · right
    have h2 : (p ++ t2) ++ [a] = l ++ [x] := by simpa [List.append_assoc] using h
    have h3 : p ++ t2 = l := by
      have := congrArg List.dropLast h2
      simpa [List.dropLast_concat] using this
    exact ⟨t2, h3⟩

theorem serializeDoc_ne_nil (manifest : List (List String × Nat)) (name : String) (ps : Nat)
    (pieceHashes : List (List Nat)) (trackers : List String) (comment : Option String)
    (isPrivate : Bool) (source : Option String) (creationDate : Option Nat) :
    serializeDoc manifest name ps pieceHashes trackers comment isPrivate source
      creationDate ≠ [] := by
  simp [serializeDoc]

/-- C3. If the task is cancelled during hashing, fails, or stops (crashes)
after any prefix of the writer's filesystem operations, the destination path
never holds a partial document: after every prefix of the task's filesystem
trace the destination either does not exist or holds the complete serialized
document, and on any non-done terminal result the destination does not exist
at the end of the trace. -/
theorem claim_c3 (H : List Nat → List Nat) (files : List (List String × List Nat)) (ps : Nat)
    (name outPath : String) (opts : BuildOptions) (env : TaskEnv) (p : List FsOp)
    (hpre : ∃ t2, p ++ t2 = (taskRun H files ps name outPath opts env).2) :
    ((runOps initFs p).dest = none ∨
      (runOps initFs p).dest = some (taskDoc H files ps name opts)) ∧
    ((taskRun H files ps name outPath opts env).1 ≠ TaskResult.done →
      (runOps initFs (taskRun H files ps name outPath opts env).2).dest = none) := by
  obtain ⟨t2, ht⟩ := hpre
  have hdoc : taskDoc H files ps name opts ≠ [] := serializeDoc_ne_nil _ _ _ _ _ _ _ _ _
  have hchunks : chunkStream 1024 (taskDoc H files ps name opts) ≠ [] := by
    rw [chunkStream_cons 1024 _ (by norm_num) hdoc]
    exact List.cons_ne_nil _ _
  have hjoin : (chunkStream 1024 (taskDoc H files ps name opts)).flatten =
      taskDoc H files ps name opts :=
    chunkStream_join 1024 (by norm_num) _ _ le_rfl
  -- abbreviations for the cases of the run
  have hempty : ∀ r : TaskResult,
      (taskRun H files ps name outPath opts env) = (r, ([] : List FsOp)) →
      ((runOps initFs p).dest = none ∨
        (runOps initFs p).dest = some (taskDoc H files ps name opts)) ∧
      ((taskRun H files ps name outPath opts env).1 ≠ TaskResult.done →
        (runOps initFs (taskRun H files ps name outPath opts env).2).dest = none) := by
    intro r hr
    rw [hr] at ht ⊢
    simp only at ht
    have hp : p = [] := (List.append_eq_nil.mp ht).1
    subst hp
    exact ⟨Or.inl rfl, fun _ => rfl⟩
  have hcleanup : ∀ r : TaskResult, r ≠ TaskResult.done →
      (taskRun H files ps name outPath opts env) =
        (r, (chunkStream 1024 (taskDoc H files ps name opts)).map FsOp.writeTemp
              ++ [FsOp.removeTemp]) →
      ((runOps initFs p).dest = none ∨
        (runOps initFs p).dest = some (taskDoc H files ps name opts)) ∧
      ((taskRun H files ps name outPath opts env).1 ≠ TaskResult.done →
        (runOps initFs (taskRun H files ps name outPath opts env).2).dest = none) := by
    intro r _ hr
    rw [hr] at ht ⊢
    simp only at ht ⊢
    have hnorename : ∀ op ∈ (chunkStream 1024 (taskDoc H files ps name opts)).map FsOp.writeTemp
        ++ [FsOp.removeTemp], op ≠ FsOp.renameTempToDest := by
      intro op hop
      rcases List.mem_append.mp hop with hin | hin
      · obtain ⟨c, _, rfl⟩ := List.mem_map.mp hin
        simp
      · rcases List.mem_singleton.mp hin with rfl
        simp
    constructor
    · left
      apply runOps_dest_of_no_rename
      intro op hop
      exact hnorename op (ht ▸ List.mem_append_left t2 hop)
    · intro _
      exact runOps_dest_of_no_rename _ _ hnorename
  by_cases hh : ∃ r, hashPhase env.cancelAtPiece env.readErr
      (pipelinePieces ps (files.map Prod.snd)).length 0 = some r
  · obtain ⟨r, hr⟩ := hh
    exact hempty r (by simp [taskRun, hr])
  · push_neg at hh
    have hnone : hashPhase env.cancelAtPiece env.readErr
        (pipelinePieces ps (files.map Prod.snd)).length 0 = none := by
      cases hcase : hashPhase env.cancelAtPiece env.readErr
          (pipelinePieces ps (files.map Prod.snd)).length 0 with
      | none => rfl
      | some r => exact absurd hcase (hh r)
    by_cases hf : ∃ u, opts.trackers.find? (fun u => !wellFormedUrl u) = some u
    · obtain ⟨u, hu⟩ := hf
      exact hempty (TaskResult.failed (TaskError.invalidConfiguration u))
        (by simp [taskRun, hnone, hu])
    · push_neg at hf
      have hfnone : opts.trackers.find? (fun u => !wellFormedUrl u) = none := by
        cases hcase : opts.trackers.find? (fun u => !wellFormedUrl u) with
        | none => rfl
        | some u => exact absurd hcase (hf u)
      by_cases hp : opts.isPrivate && opts.trackers.isEmpty
      · exact hempty
          (TaskResult.failed (TaskError.invalidConfiguration "private torrent without trackers"))
          (by simp [taskRun, hnone, hfnone, hp])
      · by_cases hcbr : env.cancelBeforeRename
        · exact hcleanup TaskResult.cancelled (by simp)
            (by simp [taskRun, hnone, hfnone, hp, hcbr])
        · by_cases hrf : env.renameFails
          · exact hcleanup (TaskResult.failed (TaskError.ioWrite outPath)) (by simp)
              (by simp [taskRun, hnone, hfnone, hp, hcbr, hrf])
          · have hrun : taskRun H files ps name outPath opts env =
                (TaskResult.done,
                  (chunkStream 1024 (taskDoc H files ps name opts)).map FsOp.writeTemp
                    ++ [FsOp.renameTempToDest]) := by
              simp [taskRun, hnone, hfnone, hp, hcbr, hrf]
            rw [hrun] at ht ⊢
            simp only at ht ⊢
            constructor
            · rcases append_concat_cases p t2 _ _ ht with ⟨hfull, -⟩ | ⟨t3, hpw⟩
              · right
                subst hfull
                rw [runOps_append]
                have htemp := runOps_writes_temp
                  (chunkStream 1024 (taskDoc H files ps name opts)) initFs hchunks
                simp only [runOps, applyOp]
                rw [htemp]
                simp [initFs, hjoin]
              · left
                apply runOps_dest_of_no_rename
                intro op hop
                have hmem : op ∈ (chunkStream 1024
                    (taskDoc H files ps name opts)).map FsOp.writeTemp :=
                  hpw ▸ List.mem_append_left t3 hop
                obtain ⟨c, _, rfl⟩ := List.mem_map.mp hmem
                simp
            · intro hcontra
              exact absurd rfl hcontra

/-- Witness for C3: applying the theorem to a run that is cancelled during
hashing, at the empty trace prefix. -/
theorem claim_c3_witness :
    ((runOps initFs []).dest = none ∨
      (runOps initFs []).dest =
        some (taskDoc (fun l => l) [(["f"], [0, 1, 2])] 2 "n"
          ⟨["http://tr.example/a"], none, false, none, none⟩)) ∧
    ((taskRun (fun l => l) [(["f"], [0, 1, 2])] 2 "n" "out"
        ⟨["http://tr.example/a"], none, false, none, none⟩ ⟨some 0, none, false, false⟩).1 ≠
          TaskResult.done →
      (runOps initFs (taskRun (fun l => l) [(["f"], [0, 1, 2])] 2 "n" "out"
        ⟨["http://tr.example/a"], none, false, none, none⟩
        ⟨some 0, none, false, false⟩).2).dest = none) :=
  claim_c3 (fun l => l) [(["f"], [0, 1, 2])] 2 "n" "out"
    ⟨["http://tr.example/a"], none, false, none, none⟩ ⟨some 0, none, false, false⟩ []
    ⟨_, rfl⟩

theorem hashPhase_none_none (count : Nat) :
    ∀ k i, count - i ≤ k → hashPhase none none count i = none := by
  intro k
  induction k with
  | zero =>
    intro i h
    rw [hashPhase.eq_def]
    rw [if_neg (by omega)]
  | succ k ih =>
    intro i h
    rw [hashPhase.eq_def]
    by_cases hi : i < count
    · rw [if_pos hi]
      have hcn : ¬ (none = some i) := by simp
      rw [if_neg hcn]
      exact ih (i + 1) (by omega)
    · rw [if_neg hi]

theorem find?_exists {α : Type} (pr : α → Bool) (l : List α) (a : α) (ha : a ∈ l)
    (hp : pr a = true) : ∃ b, l.find? pr = some b ∧ b ∈ l ∧ pr b = true := by
  induction l with
  | nil => cases ha
  | cons x xs ih =>
    by_cases hx : pr x = true
    · exact ⟨x, by simp [List.find?, hx], List.mem_cons_self x xs, hx⟩
    · have hx2 : pr x = false := by
        cases hc : pr x
        · rfl
        · exact absurd hc hx
      rcases List.mem_cons.mp ha with rfl | hmem
      · exact absurd hp hx
      · obtain ⟨b, hb1, hb2, hb3⟩ := ih hmem
        exact ⟨b, by simp [List.find?, hx2, hb1], List.mem_cons_of_mem x hb2, hb3⟩

/-- C6. An invocation whose tracker list contains a malformed URL (and whose
run is not interrupted earlier by cancellation or a read error) terminates
with Failed(InvalidConfiguration) carrying an offending URL; the task
performs no filesystem operation, so zero bytes reach the destination; and
whenever the shell reached the build and the core reports the URL result, the
shell prints the offending URL it was handed. -/
theorem claim_c6 (H : List Nat → List Nat) (files : List (List String × List Nat)) (ps : Nat)
    (name outPath : String) (opts : BuildOptions) (env : TaskEnv) (u : String)
    (hmem : u ∈ opts.trackers) (hbad : wellFormedUrl u = false)
    (hc : env.cancelAtPiece = none) (hr : env.readErr = none) :
    (∃ u2, u2 ∈ opts.trackers ∧ wellFormedUrl u2 = false ∧
      (taskRun H files ps name outPath opts env).1 =
        TaskResult.failed (TaskError.invalidConfiguration u2)) ∧
    (taskRun H files ps name outPath opts env).2 = [] ∧
    (runOps initFs (taskRun H files ps name outPath opts env).2).dest = none ∧
    (∀ args senv views, senv.result = MakeMetaResult.url →
      Event.startedMakeMeta ∈ (tr_main args senv views).1 →
      Event.resultUrl senv.errfile ∈ (tr_main args senv views).1) := by
  have hnone : hashPhase env.cancelAtPiece env.readErr
      (pipelinePieces ps (files.map Prod.snd)).length 0 = none := by
    rw [hc, hr]
    exact hashPhase_none_none _ _ 0 le_rfl
  obtain ⟨u2, hf1, hf2, hf3⟩ :=
    find?_exists (fun v => !wellFormedUrl v) opts.trackers u hmem (by simp [hbad])
  have hrun : taskRun H files ps name outPath opts env =
      (TaskResult.failed (TaskError.invalidConfiguration u2), []) := by
    simp [taskRun, hnone, hf1]
  refine ⟨⟨u2, hf2, by simpa using hf3, by rw [hrun]⟩, by rw [hrun], by rw [hrun]; rfl, ?_⟩
  intro args senv views hres hstart
  cases hp : parseCommandLine {} args with
  | none => simp [tr_main, hp] at hstart
  | some o =>
    by_cases hv : o.show_version
    · simp [tr_main, hp, hv] at hstart
    · cases hin : o.infile with
      | none => simp [tr_main, hp, hv, hin] at hstart
      | some f =>
        cases hout : (match o.outfile with
                      | some g => some g
                      | none => senv.basename.map (fun b => b ++ ".torrent")) with
        | none => simp [tr_main, hp, hv, hin, hout] at hstart
        | some g =>
          by_cases htp : (o.trackers.isEmpty && o.is_private) = true
          · simp [tr_main, hp, hv, hin, hout, htp] at hstart
          · cases hco : senv.createOk with
            | false => simp [tr_main, hp, hv, hin, hout, htp, hco] at hstart
            | true =>
              simp [tr_main, hp, hv, hin, hout, htp, hco, resultEvent, hres]

/-- C5. With isPrivate set and an empty tracker list (on an invocation that
supplies an input path, is not a version query, and can deduce an output
path), the shell prints the private-without-trackers error and exits with
failure before the builder is even created and before any build is
started. -/
theorem claim_c5 (args : List CmdOpt) (env : ShellEnv) (views : List builder_view)
    (o : app_options) (hp : parseCommandLine {} args = some o)
    (hv : o.show_version = false) (hin : o.infile.isSome = true)
    (hout : o.outfile.isSome = true ∨ env.basename.isSome = true)
    (hpriv : o.is_private = true) (htr : o.trackers = []) :
    (tr_main args env views).2 = EXIT_FAILURE ∧
    Event.errPrivateNoTrackers ∈ (tr_main args env views).1 ∧
    Event.calledBuilderCreate ∉ (tr_main args env views).1 ∧
    Event.startedMakeMeta ∉ (tr_main args env views).1 := by
  obtain ⟨f, hf⟩ := Option.isSome_iff_exists.mp hin
  rcases hout with h1 | h1
  · obtain ⟨g, hg⟩ := Option.isSome_iff_exists.mp h1
    simp [tr_main, hp, hv, hf, hg, hpriv, htr]
  · obtain ⟨g, hg⟩ := Option.isSome_iff_exists.mp h1
    cases ho : o.outfile with
    | some g2 => simp [tr_main, hp, hv, hf, ho, hpriv, htr]
    | none => simp [tr_main, hp, hv, hf, ho, hg, hpriv, htr]

/-- C7. With an empty tracker list but isPrivate unset (and an otherwise
successful run), the shell reports the non-fatal warning, still starts the
build, and the run completes with a success exit status. -/
theorem claim_c7 (args : List CmdOpt) (env : ShellEnv) (views : List builder_view)
    (o : app_options) (hp : parseCommandLine {} args = some o)
    (hv : o.show_version = false) (hin : o.infile.isSome = true)
    (hout : o.outfile.isSome = true ∨ env.basename.isSome = true)
    (hpriv : o.is_private = false) (htr : o.trackers = [])
    (hc : env.createOk = true) (hres : env.result = MakeMetaResult.ok) :
    (tr_main args env views).2 = EXIT_SUCCESS ∧
    Event.warnNoTrackers ∈ (tr_main args env views).1 ∧
    Event.startedMakeMeta ∈ (tr_main args env views).1 ∧
    Event.resultOk ∈ (tr_main args env views).1 := by
  obtain ⟨f, hf⟩ := Option.isSome_iff_exists.mp hin
  rcases hout with h1 | h1
  · obtain ⟨g, hg⟩ := Option.isSome_iff_exists.mp h1
    simp [tr_main, hp, hv, hf, hg, hpriv, htr, hc, resultEvent, hres]
  · obtain ⟨g, hg⟩ := Option.isSome_iff_exists.mp h1
    cases ho : o.outfile with
    | some g2 => simp [tr_main, hp, hv, hf, ho, hpriv, htr, hc, resultEvent, hres]
    | none => simp [tr_main, hp, hv, hf, ho, hg, hpriv, htr, hc, resultEvent, hres]

/-- C9. The polling loop never writes the builder state: it returns every
snapshot of every interleaving exactly as observed; and its output depends
only on the fields it reads (isDone, pieceIndex, pieceCount) — interleavings
agreeing on those fields produce identical output even when all other builder
fields differ. -/
theorem claim_c9 (vs : List builder_view) (last : Nat) :
    (pollLoop vs last).1 = vs ∧
    (∀ vs2, List.Forall₂ (fun a b : builder_view =>
        a.isDone = b.isDone ∧ a.pieceIndex = b.pieceIndex ∧ a.pieceCount = b.pieceCount)
        vs vs2 →
      (pollLoop vs last).2 = (pollLoop vs2 last).2) := by
  induction vs generalizing last with
  | nil =>
    refine ⟨rfl, ?_⟩
    intro vs2 h
    cases h
    rfl
  | cons v vs ih =>
    constructor
    · by_cases hd : v.isDone
      · simp [pollLoop, hd]
      · simp [pollLoop, hd, (ih _).1]
    · intro vs2 h
      cases h with
      | cons hab h2 =>
        rename_i b vs2'
        obtain ⟨h1, h2i, h3⟩ := hab
        by_cases hd : v.isDone
        · have hb : b.isDone = true := h1 ▸ hd
          simp [pollLoop, hd, hb]
        · have hb : b.isDone = false := by
            rw [← h1]
            simpa using hd
          simp only [pollLoop, hd, hb, if_pos, if_neg, Bool.false_eq_true, ite_false,
            ← h2i, ← h3]
          have := (ih (if v.pieceIndex ≠ last then v.pieceIndex else last)).2 vs2' h2
          rw [this]

/-- C10. Once the builder is created successfully the shell's exit status is
EXIT_SUCCESS for every terminal result of the build (ok, bad announce URL,
read error, write error, cancelled); EXIT_FAILURE arises only from the
pre-builder checks: a bad command line, a missing input path, an undeducible
output path, a private torrent without trackers, or a failed builder
creation. -/
theorem claim_c10 (args : List CmdOpt) (env : ShellEnv) (views : List builder_view) :
    ((∃ o, parseCommandLine {} args = some o ∧ o.show_version = false ∧
        o.infile.isSome = true ∧
        (o.outfile.isSome = true ∨ env.basename.isSome = true) ∧
        (o.trackers.isEmpty && o.is_private) = false ∧ env.createOk = true) →
      (tr_main args env views).2 = EXIT_SUCCESS) ∧
    ((tr_main args env views).2 = EXIT_FAILURE →
      parseCommandLine {} args = none ∨
      ∃ o, parseCommandLine {} args = some o ∧
        (o.infile = none ∨
         (o.outfile = none ∧ env.basename = none) ∨
         (o.trackers.isEmpty && o.is_private) = true ∨
         env.createOk = false)) := by
  cases hp : parseCommandLine {} args with
  | none =>
    constructor
    · rintro ⟨o, ho, -⟩
      cases ho
    · intro _
      exact Or.inl rfl
  | some o =>
    constructor
    · rintro ⟨o2, ho2, hv, hin, hout, htp, hc⟩
      obtain rfl : o2 = o := (Option.some.inj ho2).symm
      obtain ⟨f, hf⟩ := Option.isSome_iff_exists.mp hin
      rcases hout with h1 | h1
      · obtain ⟨g, hg⟩ := Option.isSome_iff_exists.mp h1
        simp [tr_main, hp, hv, hf, hg, htp, hc]
      · obtain ⟨g, hg⟩ := Option.isSome_iff_exists.mp h1
        cases ho : o2.outfile with
        | some g2 => simp [tr_main, hp, hv, hf, ho, htp, hc]
        | none => simp [tr_main, hp, hv, hf, ho, hg, htp, hc]
    · intro hfail
      right
      refine ⟨o, rfl, ?_⟩
      by_cases hv : o.show_version
      · exfalso
        simp [tr_main, hp, hv, EXIT_SUCCESS, EXIT_FAILURE] at hfail
      · cases hin : o.infile with
        | none => exact Or.inl rfl
        | some f =>
          cases hout : (match o.outfile with
                        | some g => some g
                        | none => env.basename.map (fun b => b ++ ".torrent")) with
          | none =>
            right
            left
            cases ho : o.outfile with
            | some g => rw [ho] at hout; cases hout
            | none =>
              cases hb : env.basename with
              | none => exact ⟨rfl, rfl⟩
              | some b => rw [ho, hb] at hout; cases hout
          | some g =>
            by_cases htp : (o.trackers.isEmpty && o.is_private) = true
            · exact Or.inr (Or.inr (Or.inl htp))
            · cases hco : env.createOk with
              | false => exact Or.inr (Or.inr (Or.inr rfl))
              | true =>
                exfalso
                simp [tr_main, hp, hv, hin, hout, htp, hco,
                  EXIT_SUCCESS, EXIT_FAILURE] at hfail

/-- C8 fails as stated: for the -s argument string of digit 5 then M then x
the code multiplies by 1024 because an M immediately follows the digits,
while the claim's trailing-M reading does not (the last character is x), so
the two disagree on the override. -/
theorem claim_c8_counterexample :
    overrideOfArg "5Mx" ≠ claimedOverrideOfArg "5Mx" := by decide

/-- C8 (amended). For every -s argument string, the override passed to the
builder is the parsed KiB value times 1024 with 32-bit wrapping, where the
parsed value is first multiplied by 1024 when an M immediately follows the
parsed digits (whatever follows the M); no override is set exactly when the
resulting 32-bit KiB value is zero (including an unparsable string). -/
theorem claim_c8 (s : String) : overrideOfArg s = amendedOverrideOfArg s := by
  simp only [overrideOfArg, parsePieceSizeKib, pieceSizeOverride, amendedOverrideOfArg]
  by_cases hM : (strtoul10 s.data).2.headD (Char.ofNat 0) = 'M'
  · rw [if_pos hM, if_pos hM]
    have he : u32 (u32 (strtoul10 s.data).1 * 1024) =
        (strtoul10 s.data).1 * 1024 % 4294967296 := by
      simp only [u32]
      exact Nat.mod_mul_mod
    rw [he]
    by_cases h0 : (strtoul10 s.data).1 * 1024 % 4294967296 = 0
    · rw [if_neg (by simpa using h0), if_pos h0]
    · rw [if_pos h0, if_neg h0]
      simp [u32]
  · rw [if_neg hM, if_neg hM]
    by_cases h0 : (strtoul10 s.data).1 % 4294967296 = 0
    · rw [if_neg (by simpa [u32] using h0), if_pos h0]
    · rw [if_pos (by simpa [u32] using h0), if_neg h0]
      simp [u32]

/-- Witness for C5 at -p with one free argument and no trackers. -/
theorem claim_c5_witness :
    (tr_main [CmdOpt.optP, CmdOpt.unknownArg "in"]
        ⟨some "in", true, MakeMetaResult.ok, ""⟩ []).2 = EXIT_FAILURE ∧
    Event.errPrivateNoTrackers ∈ (tr_main [CmdOpt.optP, CmdOpt.unknownArg "in"]
        ⟨some "in", true, MakeMetaResult.ok, ""⟩ []).1 ∧
    Event.calledBuilderCreate ∉ (tr_main [CmdOpt.optP, CmdOpt.unknownArg "in"]
        ⟨some "in", true, MakeMetaResult.ok, ""⟩ []).1 ∧
    Event.startedMakeMeta ∉ (tr_main [CmdOpt.optP, CmdOpt.unknownArg "in"]
        ⟨some "in", true, MakeMetaResult.ok, ""⟩ []).1 :=
  claim_c5 [CmdOpt.optP, CmdOpt.unknownArg "in"] ⟨some "in", true, MakeMetaResult.ok, ""⟩ []
    { is_private := true, infile := some "in" } rfl rfl rfl (Or.inr rfl) rfl rfl

/-- Witness for C6 at a malformed tracker URL. -/
theorem claim_c6_witness :
    (∃ u2, u2 ∈ (⟨["bad url"], none, false, none, none⟩ : BuildOptions).trackers ∧
      wellFormedUrl u2 = false ∧
      (taskRun (fun l => l) [(["f"], [0, 1])] 2 "n" "out"
        ⟨["bad url"], none, false, none, none⟩ ⟨none, none, false, false⟩).1 =
          TaskResult.failed (TaskError.invalidConfiguration u2)) ∧
    (taskRun (fun l => l) [(["f"], [0, 1])] 2 "n" "out"
      ⟨["bad url"], none, false, none, none⟩ ⟨none, none, false, false⟩).2 = [] ∧
    (runOps initFs (taskRun (fun l => l) [(["f"], [0, 1])] 2 "n" "out"
      ⟨["bad url"], none, false, none, none⟩ ⟨none, none, false, false⟩).2).dest = none ∧
    (∀ args senv views, senv.result = MakeMetaResult.url →
      Event.startedMakeMeta ∈ (tr_main args senv views).1 →
      Event.resultUrl senv.errfile ∈ (tr_main args senv views).1) :=
  claim_c6 (fun l => l) [(["f"], [0, 1])] 2 "n" "out"
    ⟨["bad url"], none, false, none, none⟩ ⟨none, none, false, false⟩ "bad url"
    (List.mem_singleton.mpr rfl) (by decide) rfl rfl

/-- Witness for C7: no trackers, not private, successful run. -/
theorem claim_c7_witness :
    (tr_main [CmdOpt.unknownArg "f"] ⟨some "f", true, MakeMetaResult.ok, ""⟩ []).2
      = EXIT_SUCCESS ∧
    Event.warnNoTrackers ∈
      (tr_main [CmdOpt.unknownArg "f"] ⟨some "f", true, MakeMetaResult.ok, ""⟩ []).1 ∧
    Event.startedMakeMeta ∈
      (tr_main [CmdOpt.unknownArg "f"] ⟨some "f", true, MakeMetaResult.ok, ""⟩ []).1 ∧
    Event.resultOk ∈
      (tr_main [CmdOpt.unknownArg "f"] ⟨some "f", true, MakeMetaResult.ok, ""⟩ []).1 :=
  claim_c7 [CmdOpt.unknownArg "f"] ⟨some "f", true, MakeMetaResult.ok, ""⟩ []
    { infile := some "f" } rfl rfl rfl (Or.inr rfl) rfl rfl rfl rfl

/-- Witness for C9: one poll step over two builder snapshots agreeing on the
progress fields but differing in every other field. -/
theorem claim_c9_witness :
    (pollLoop [⟨false, 0, 3, MakeMetaResult.ok, "", 1, 10, 4⟩] 4294967295).1
      = [⟨false, 0, 3, MakeMetaResult.ok, "", 1, 10, 4⟩] ∧
    (pollLoop [⟨false, 0, 3, MakeMetaResult.ok, "", 1, 10, 4⟩] 4294967295).2
      = (pollLoop [⟨false, 0, 3, MakeMetaResult.ioRead, "e", 2, 99, 8⟩] 4294967295).2 :=
  ⟨(claim_c9 [⟨false, 0, 3, MakeMetaResult.ok, "", 1, 10, 4⟩] 4294967295).1,
   (claim_c9 [⟨false, 0, 3, MakeMetaResult.ok, "", 1, 10, 4⟩] 4294967295).2
     [⟨false, 0, 3, MakeMetaResult.ioRead, "e", 2, 99, 8⟩]
     (List.Forall₂.cons ⟨rfl, rfl, rfl⟩ List.Forall₂.nil)⟩

/-- Witness for C10: a cancelled build still exits with success. -/
theorem claim_c10_witness :
    (tr_main [CmdOpt.unknownArg "f", CmdOpt.optT "http://tr.example/a"]
      ⟨some "f", true, MakeMetaResult.cancelled, ""⟩ []).2 = EXIT_SUCCESS :=
  (claim_c10 [CmdOpt.unknownArg "f", CmdOpt.optT "http://tr.example/a"]
      ⟨some "f", true, MakeMetaResult.cancelled, ""⟩ []).1
    ⟨{ trackers := ["http://tr.example/a"], infile := some "f" }, rfl, rfl, rfl,
      Or.inr rfl, rfl, rfl⟩

end TrCreate
